import Mathlib

/-!
Verification development for the Signature Assignment & Document
Reconstruction Engine (SMART-SIGN-PRO).

The definitions below are a shallow embedding of the TypeScript source in
`src/services/excelService.ts` (with a handful of helpers from the missing
`services/excelUtils.ts` modelled from the specification, as marked).
JavaScript strings are modelled as Lean `String`, JS numbers as `Nat`/`Int`
for integral quantities and `Rat` for fractional ones, `Map` objects as
association lists, and `Math.random()` as an explicit stream of rationals
in `[0, 1)` (one entry per call, in call order).
-/

/-! ## Character-level utilities -/

/-- Characters matched by the JavaScript regex class `[\s ﻿]`
(JS `\s` already contains U+00A0 and U+FEFF; the union is the ECMAScript
WhiteSpace and LineTerminator productions). -/
def jsSpaceChar (c : Char) : Bool :=
  let n := c.toNat
  n == 0x20 || n == 0x9 || n == 0xA || n == 0xB || n == 0xC || n == 0xD ||
  n == 0xA0 || n == 0x1680 || (0x2000 ≤ n && n ≤ 0x200A) || n == 0x2028 ||
  n == 0x2029 || n == 0x202F || n == 0x205F || n == 0x3000 || n == 0xFEFF

/-- ECMAScript LineTerminator characters, which the `.` of a JS regex
(without the `s` flag) never matches. -/
def jsLineTerm (c : Char) : Bool :=
  let n := c.toNat
  n == 0xA || n == 0xD || n == 0x2028 || n == 0x2029

/-- Model of `String.prototype.trim` (drops leading and trailing JS
whitespace). -/
def jsTrim (s : String) : String :=
  String.mk (((s.data.dropWhile jsSpaceChar).reverse.dropWhile jsSpaceChar).reverse)

/-- Model of `.replace(/[\s ﻿]+/g, '')`: delete every JS
whitespace character. -/
def stripWs (s : String) : String :=
  String.mk (s.data.filter (fun c => !jsSpaceChar c))

/-- Opening brackets of the annotation-stripping regex `[\(\[\{]`. -/
def isOpenBracketChar (c : Char) : Bool :=
  c == '(' || c == '[' || c == Char.ofNat 123

/-- Closing brackets of the annotation-stripping regex `[\)\]\}]`. -/
def isCloseBracketChar (c : Char) : Bool :=
  c == ')' || c == ']' || c == Char.ofNat 125

/-- One-pass model of the global, leftmost, non-greedy regex replace
`.replace(/[\(\[\{].*?[\)\]\}]/g, '')` from `normalizeName`
(src/services/excelService.ts line 12).

A match starts at the leftmost opening bracket, spans the shortest run of
non-line-terminator characters, and ends at the first closing bracket; the
whole match is deleted and scanning resumes after it.  The second argument
is `none` while no opening bracket is pending, and `some buf` (with `buf`
holding the pending characters in reverse) while one is: if a closing
bracket arrives the pending run is a match and is dropped; if a line
terminator arrives the pending open cannot match (JS `.` does not cross
line terminators, and no opening bracket buffered after it can match
before it either), so the buffered run is emitted verbatim. -/
def stripBracketed : List Char → Option (List Char) → List Char
  | [], none => []
  | [], some buf => buf.reverse
  | c :: rest, none =>
    if isOpenBracketChar c then stripBracketed rest (some [c])
    else c :: stripBracketed rest none
  | c :: rest, some buf =>
    if isCloseBracketChar c then stripBracketed rest none
    else if jsLineTerm c then buf.reverse ++ c :: stripBracketed rest none
    else stripBracketed rest (some (c :: buf))

/-- Characters kept by the regex replace `.replace(/[^a-zA-Z0-9가-힣]/g, '')`
(src/services/excelService.ts line 13): ASCII digits, ASCII letters and
precomposed Hangul syllables U+AC00..U+D7A3. -/
def isKeptChar (c : Char) : Bool :=
  let n := c.toNat
  (0x30 ≤ n && n ≤ 0x39) || (0x41 ≤ n && n ≤ 0x5A) ||
  (0x61 ≤ n && n ≤ 0x7A) || (0xAC00 ≤ n && n ≤ 0xD7A3)

/-- Model of `String.prototype.toLowerCase` restricted to the characters it
is applied to in this code base.  In `normalizeName` the call runs after the
`[^a-zA-Z0-9가-힣]` filter, and digits and Hangul syllables are caseless, so
only the ASCII A–Z mapping of the Unicode lowercase conversion is ever
exercised. -/
def jsToLower (c : Char) : Char :=
  if 0x41 ≤ c.toNat ∧ c.toNat ≤ 0x5A then Char.ofNat (c.toNat + 32) else c

/-- Model of `String.prototype.toUpperCase` for the ASCII range, used on
merge-range strings (cell addresses: ASCII letters, digits, `:`, `$`). -/
def jsToUpper (c : Char) : Char :=
  if 0x61 ≤ c.toNat ∧ c.toNat ≤ 0x7A then Char.ofNat (c.toNat - 32) else c

/-- Embedding of `normalizeName` (src/services/excelService.ts lines 8-15):
drop bracketed runs, keep only ASCII alphanumerics and Hangul syllables,
and lower-case the remainder.  The `if (!name) return ''` guard is the
falsy-string check. -/
def normalizeName (name : String) : String :=
  if name == "" then ""
  else String.mk (((stripBracketed name.data none).filter isKeptChar).map jsToLower)

/-! ## Facts about `normalizeName` (claims C9, C10) -/

/-- Output characters of the kept alphabet after lower-casing: ASCII digits,
ASCII lowercase letters, Hangul syllables. -/
def isKeptLowerChar (c : Char) : Bool :=
  let n := c.toNat
  (0x30 ≤ n && n ≤ 0x39) || (0x61 ≤ n && n ≤ 0x7A) || (0xAC00 ≤ n && n ≤ 0xD7A3)

theorem jsToLower_kept {c : Char} (h : isKeptChar c = true) :
    isKeptLowerChar (jsToLower c) = true := by
  unfold jsToLower
  by_cases hu : 0x41 ≤ c.toNat ∧ c.toNat ≤ 0x5A
  · rw [if_pos hu]
    obtain ⟨h1, h2⟩ := hu
    interval_cases h3 : c.toNat <;> decide
  · rw [if_neg hu]
    simp only [isKeptChar, isKeptLowerChar, Bool.or_eq_true, Bool.and_eq_true,
      decide_eq_true_eq] at h ⊢
    omega

theorem mem_normalizeName {s : String} {c : Char} (h : c ∈ (normalizeName s).data) :
    isKeptLowerChar c = true := by
  unfold normalizeName at h
  by_cases h0 : s == ""
  · rw [if_pos h0] at h
    simp at h
  · rw [if_neg h0] at h
    simp only [String.data] at h
    obtain ⟨c', hc', rfl⟩ := List.mem_map.mp h
    exact jsToLower_kept (List.of_mem_filter hc')

theorem jsToLower_id_of_lower {c : Char} (h : isKeptLowerChar c = true) :
    jsToLower c = c := by
  unfold jsToLower
  simp only [isKeptLowerChar, Bool.or_eq_true, Bool.and_eq_true, decide_eq_true_eq] at h
  rw [if_neg (by omega)]

theorem isOpen_toNat {c : Char} (h : isOpenBracketChar c = true) :
    c.toNat = 40 ∨ c.toNat = 91 ∨ c.toNat = 123 := by
  simp only [isOpenBracketChar, Bool.or_eq_true, beq_iff_eq] at h
  rcases h with (h | h) | h <;> subst h <;> decide

theorem kept_not_open {c : Char} (h : isKeptLowerChar c = true) :
    isOpenBracketChar c = false := by
  rcases Bool.eq_false_or_eq_true (isOpenBracketChar c) with ht | hf
  · exfalso
    have h40 := isOpen_toNat ht
    simp only [isKeptLowerChar, Bool.or_eq_true, Bool.and_eq_true, decide_eq_true_eq] at h
    omega
  · exact hf

theorem list_map_self {α : Type} (f : α → α) (l : List α) (h : ∀ a ∈ l, f a = a) :
    l.map f = l := by
  induction l with
  | nil => rfl
  | cons a t ih =>
    simp only [List.map_cons, h a (List.mem_cons_self a t),
      ih (fun b hb => h b (List.mem_cons_of_mem a hb))]

theorem stripBracketed_id {l : List Char} (h : ∀ c ∈ l, isOpenBracketChar c = false) :
    stripBracketed l none = l := by
  induction l with
  | nil => rfl
  | cons c rest ih =>
    rw [stripBracketed, if_neg]
    · rw [ih (fun d hd => h d (List.mem_cons_of_mem c hd))]
    · simp [h c (List.mem_cons_self c rest)]

/-- C10: `normalizeName` is idempotent: normalizing an already-normalized
name is the identity, so indexing the signature pool by a normalized name
and normalizing a raw cell value produce matching keys. -/
theorem c10_normalizeName_idempotent (s : String) :
    normalizeName (normalizeName s) = normalizeName s := by
  have hall : ∀ c ∈ (normalizeName s).data, isKeptLowerChar c = true :=
    fun c hc => mem_normalizeName hc
  by_cases h1 : normalizeName s == ""
  · rw [normalizeName, if_pos h1, eq_of_beq h1]
  · rw [normalizeName, if_neg h1]
    rw [stripBracketed_id (fun c hc => kept_not_open (hall c hc))]
    rw [List.filter_eq_self.mpr (fun c hc => by
      have := hall c hc
      simp only [isKeptLowerChar, isKeptChar, Bool.or_eq_true, Bool.and_eq_true,
        decide_eq_true_eq] at this ⊢
      omega)]
    rw [list_map_self jsToLower _ (fun c hc => jsToLower_id_of_lower (hall c hc))]

/-- C9 counterexample: the Greek lowercase letter alpha is a letter, yet
`normalizeName` erases it entirely — the character filter keeps only ASCII
letters, ASCII digits and Hangul syllables, not letters of every script, so
the claim "letters of any alphabet survive normalization" is false. -/
theorem c9_counterexample_greek_letter_erased : normalizeName "α" = "" := by decide

/-- C9 (amended): `normalizeName` strips bracketed annotations, keeps only
ASCII letters, ASCII digits and precomposed Hangul syllables (U+AC00..U+D7A3)
and lower-cases the remainder; letters of any other script are removed, so
every character of the output is an ASCII digit, an ASCII lowercase letter or
a Hangul syllable. -/
theorem c9_amended_kept_alphabet (s : String) (c : Char)
    (h : c ∈ (normalizeName s).data) : isKeptLowerChar c = true :=
  mem_normalizeName h

theorem c9_amended_kept_alphabet_witness :
    'a' ∈ (normalizeName "A(x)b가").data ∧ isKeptLowerChar 'a' = true :=
  ⟨by decide, c9_amended_kept_alphabet "A(x)b가" 'a' (by decide)⟩

/-! ## Data model (src/unnamed/part_000, the `types` module) -/

/-- Embedding of the `CellData` interface: the flattened display text of a
cell plus its 1-based coordinates and A1-style address. -/
structure CellData where
  value : String
  address : String
  row : Nat
  col : Nat
deriving DecidableEq

/-- Embedding of the `RowData` interface. -/
structure RowData where
  index : Nat
  cells : List CellData
deriving DecidableEq

/-- Embedding of the `SheetData` interface.  The optional `mergedCells`
array is modelled as a plain list (the engine reads it through
`sheetData.mergedCells || []`). -/
structure SheetData where
  name : String
  rows : List RowData
  mergedCells : List String
  printArea : Option String
deriving DecidableEq

/-- Embedding of the `SignatureFile` interface.  `width`/`height` are JS
numbers used only in aspect-ratio arithmetic, modelled as rationals. -/
structure SignatureFile where
  name : String
  variant : String
  previewUrl : String
  width : Rat
  height : Rat
deriving DecidableEq

/-- Embedding of the `SignatureAssignment` interface. -/
structure SignatureAssignment where
  row : Nat
  col : Nat
  signatureBaseName : String
  signatureVariantId : String
  rotation : Int
  scale : Rat
  offsetX : Int
  offsetY : Int
deriving DecidableEq

/-- Model of a JS `Map` as an association list in insertion order.
`Map.prototype.get`. -/
def mapGet {α : Type} (m : List (String × α)) (k : String) : Option α :=
  (m.find? (fun p => p.1 == k)).map (fun p => p.2)

/-- Model of `Map.prototype.set`: overwrite in place if the key exists,
otherwise append (JS maps preserve first-insertion order). -/
def mapSet {α : Type} (m : List (String × α)) (k : String) (v : α) :
    List (String × α) :=
  if m.any (fun p => p.1 == k) then
    m.map (fun p => if p.1 == k then (k, v) else p)
  else m ++ [(k, v)]

/-! ## Helpers from `services/excelUtils.ts`

That file is not part of the provided sources (only its import list and the
repository changelog describe it), so the four helpers below are modelled
from the specification. -/

/-- Modelled from the spec: `columnLetterToNumber` from the missing
`services/excelUtils.ts` — converts an Excel column label (`"A"` → 1,
`"AA"` → 27) to its 1-based number; lowercase letters are uppercased
first. -/
def columnLetterToNumber (s : String) : Nat :=
  (s.data.map jsToUpper).foldl (fun acc c => acc * 26 + (c.toNat - 64)) 0

/-- Helper for `colNumberToLetter`: bijective base-26 digits, most
significant last; the first argument is fuel (the column number itself
suffices since the quotient shrinks every step). -/
def colLetterGo : Nat → Nat → String → String
  | 0, _, acc => acc
  | _ + 1, 0, acc => acc
  | fuel + 1, n, acc =>
    colLetterGo fuel ((n - 1) / 26) (String.mk [Char.ofNat (65 + (n - 1) % 26)] ++ acc)

/-- Modelled from the spec: `colNumberToLetter` from the missing
`services/excelUtils.ts` — converts a 1-based column number to its Excel
letter label (1 → `"A"`, 27 → `"AA"`). -/
def colNumberToLetter (n : Nat) : String := colLetterGo n n ""

/-- ASCII letter test used when splitting an A1-style address. -/
def isAsciiLetterChar (c : Char) : Bool :=
  (0x41 ≤ c.toNat && c.toNat ≤ 0x5A) || (0x61 ≤ c.toNat && c.toNat ≤ 0x7A)

/-- ASCII digit test. -/
def isAsciiDigitChar (c : Char) : Bool := 0x30 ≤ c.toNat && c.toNat ≤ 0x39

/-- Digits of an address to a number. -/
def digitsToNat (l : List Char) : Nat := l.foldl (fun acc c => acc * 10 + (c.toNat - 48)) 0

/-- Modelled from the spec: `parseCellAddress` from the missing
`services/excelUtils.ts` — parses an address like `"B2"` into its 1-based
`(row, col)` pair, and fails (`none`, standing for the TS null/throw that
the callers catch) on anything that is not letters followed by digits. -/
def parseCellAddress (addr : String) : Option (Nat × Nat) :=
  let letters := addr.data.takeWhile isAsciiLetterChar
  let rest := addr.data.dropWhile isAsciiLetterChar
  if letters ≠ [] ∧ rest ≠ [] ∧ rest.all isAsciiDigitChar then
    some (digitsToNat rest, columnLetterToNumber (String.mk letters))
  else none

/-- Modelled from the spec: the `SIGNATURE_PLACEHOLDERS` closed vocabulary
from the missing `services/excelUtils.ts` — "bare digit one, parenthesized
variants, trailing punctuation variants, a circle/letter-o variant"
(spec §4.4; the testing guide lists "1, o, ○"). -/
def SIGNATURE_PLACEHOLDERS : List String := ["1", "(1)", "1.", "○", "o", "O"]

/-- Modelled from the spec: `isSignaturePlaceholder` from the missing
`services/excelUtils.ts` — membership in the closed marker vocabulary
(callers pass an already whitespace-stripped string). -/
def isSignaturePlaceholder (s : String) : Bool :=
  SIGNATURE_PLACEHOLDERS.any (fun p => p == s)

/-! ## Merged-range helpers (src/services/excelService.ts lines 336-392) -/

/-- Structural model of `String.prototype.split` with a one-character
separator (the engine only splits on `":"` and `","`). -/
def splitChar (sep : Char) : List Char → List (List Char)
  | [] => [[]]
  | c :: rest =>
    if c == sep then [] :: splitChar sep rest
    else
      match splitChar sep rest with
      | [] => [[c]]
      | h :: t => (c :: h) :: t

/-- `s.split(sep)` as a list of strings. -/
def jsSplit (s : String) (sep : Char) : List String :=
  (splitChar sep s.data).map String.mk

/-- Bounds of a merge-range string: `range.split(':')` destructured into its
first two parts, each parsed with `parseCellAddress`; any parse failure is
the caught-and-skipped branch of the TS `try`. -/
def rangeBounds (range : String) : Option ((Nat × Nat) × (Nat × Nat)) :=
  let parts := jsSplit range ':'
  match parseCellAddress (parts.getD 0 ""), parseCellAddress (parts.getD 1 "") with
  | some s, some e => some (s, e)
  | _, _ => none

/-- Embedding of `isCellInMergedRange` (lines 351-369): the 1-based cell is
inside some parseable merge range. -/
def isCellInMergedRange (row col : Nat) (mergedCells : List String) : Bool :=
  mergedCells.any (fun range =>
    match rangeBounds range with
    | some ((sr, sc), (er, ec)) => sr ≤ row && row ≤ er && sc ≤ col && col ≤ ec
    | none => false)

/-- Embedding of `isTopLeftOfMergedCell` (lines 378-392): the cell is the
parsed start of some merge range. -/
def isTopLeftOfMergedCell (row col : Nat) (mergedCells : List String) : Bool :=
  mergedCells.any (fun range =>
    match parseCellAddress ((jsSplit range ':').getD 0 "") with
    | some (sr, sc) => sr == row && sc == col
    | none => false)

/-! ## Name-column locator (src/services/excelService.ts lines 242-269) -/

/-- Lower-case a string character-wise (model of the `/i` regex flag: only
the ASCII letters of the vocabulary are case-sensitive). -/
def lowerStr (s : String) : String := String.mk (s.data.map jsToLower)

/-- Pattern occurs at the head of the character list. -/
def charsLeadWith : List Char → List Char → Bool
  | [], _ => true
  | _ :: _, [] => false
  | p :: ps, c :: cs => p == c && charsLeadWith ps cs

/-- Pattern occurs somewhere in the character list. -/
def charsContain (pat : List Char) : List Char → Bool
  | [] => charsLeadWith pat []
  | c :: cs => charsLeadWith pat (c :: cs) || charsContain pat cs

/-- The header vocabulary of the regex
`/(성명|이름|name|person|employee|직원|직급)/i` (line 256). -/
def nameKeywords : List String := ["성명", "이름", "name", "person", "employee", "직원", "직급"]

/-- The regex test: some keyword occurs in the (case-folded) string. -/
def containsNameKeyword (s : String) : Bool :=
  nameKeywords.any (fun k => charsContain k.data (lowerStr s).data)

/-- One header-candidate cell (lines 250-256): skip falsy and
whitespace-only values, strip all whitespace, then run the vocabulary
regex. -/
def headerCellMatch (cell : CellData) : Bool :=
  cell.value != "" && jsTrim cell.value != "" &&
    containsNameKeyword (stripWs (jsTrim cell.value))

/-- Row-major scan for the first matching cell; `r` is the 0-based list
index of the current row (the value stored in `headerRowIndex`). -/
def findNameColGo : List RowData → Nat → Option (Nat × Nat)
  | [], _ => none
  | row :: rest, r =>
    match row.cells.find? headerCellMatch with
    | some cell => some (cell.col, r)
    | none => findNameColGo rest (r + 1)

/-- Embedding of the name-column search (lines 242-264).  The loop bound
`MAX_HEADER_SEARCH_ROWS = Math.min(50, sheetData.rows.length)` over list
indices is exactly a scan of `rows.take 50`.  Returns
`(nameColIndex, headerRowIndex)`. -/
def findNameColumn (rows : List RowData) : Option (Nat × Nat) :=
  findNameColGo (rows.take 50) 0

/-! ## Assignment engine `autoMatchSignatures`
(src/services/excelService.ts lines 223-334)

`Math.random()` is modelled as an explicit stream `rng : Nat → Rat` of
values in `[0, 1)`, indexed by call order; the counter `k` in the state
counts the calls made so far.  Each accepted placeholder consumes five
draws, in source order: variant index, rotation, scale, offsetX, offsetY. -/

/-- State of the matching loops: the assignment map under construction and
the number of `Math.random()` calls consumed. -/
structure MatchState where
  assignments : List (String × SignatureAssignment)
  k : Nat

/-- Placeholder value used for the unreachable out-of-range branch of list
indexing (`Math.random() < 1` makes `floor(r * len) < len`). -/
def defaultSignatureFile : SignatureFile := ⟨"", "", "", 0, 0⟩

/-- Model of `Math.floor(r * n)` for a rational draw `r` and a natural
bound `n`, written on the numerator/denominator representation so that it
evaluates by kernel reduction (`Int.ediv` by a positive denominator is
floor division).  `jsFloorMulNat_eq_floor` below proves it equals
`⌊r * n⌋`. -/
def jsFloorMulNat (q : Rat) (n : Nat) : Int := Int.ediv (q.num * n) q.den

theorem jsFloorMulNat_eq_floor (q : Rat) (n : Nat) :
    jsFloorMulNat q n = ⌊q * (n : Rat)⌋ := by
  have hden : ((q.den : Rat)) ≠ 0 := by
    exact_mod_cast q.den_nz
  have h : q * (n : Rat) = ((q.num * (n : Int) : Int) : Rat) / (q.den : Rat) := by
    rw [eq_div_iff hden]
    push_cast
    rw [mul_right_comm, Rat.mul_den_eq_num]
  rw [h, Rat.floor_intCast_div_natCast]
  rfl

/-- Embedding of the per-cell body of the matching loop (lines 289-328):
skip the name column, falsy values and non-placeholders; skip non-anchor
cells of merged ranges; otherwise draw the variant and the transform and
record the assignment under the key `row:col`. -/
def matchCellStep (nameColIndex : Nat) (mergedCells : List String)
    (availableSigs : List SignatureFile) (cleanName : String) (rng : Nat → Rat)
    (st : MatchState) (cell : CellData) : MatchState :=
  if cell.col == nameColIndex then st
  else if cell.value == "" then st
  else
    let cellStr := stripWs cell.value
    if isSignaturePlaceholder cellStr then
      if isCellInMergedRange cell.row cell.col mergedCells &&
          !isTopLeftOfMergedCell cell.row cell.col mergedCells then st
      else
        let key := toString cell.row ++ ":" ++ toString cell.col
        let randomSigIndex := (jsFloorMulNat (rng st.k) availableSigs.length).toNat
        let selectedSig := availableSigs.getD randomSigIndex defaultSignatureFile
        let rotation := jsFloorMulNat (rng (st.k + 1)) 11 - 5
        let scale := 95 / 100 + rng (st.k + 2) * (15 / 100)
        let offsetX := jsFloorMulNat (rng (st.k + 3)) 9 - 4
        let offsetY := jsFloorMulNat (rng (st.k + 4)) 5 - 2
        { assignments := mapSet st.assignments key
            ⟨cell.row, cell.col, cleanName, selectedSig.variant,
             rotation, scale, offsetX, offsetY⟩,
          k := st.k + 5 }
    else st

/-- Embedding of the per-row body of the matching loop (lines 275-330):
find the name cell, normalize it, look up the signature pool, and if
signatures are available process every cell of the row. -/
def matchRowStep (nameColIndex : Nat) (mergedCells : List String)
    (signatures : List (String × List SignatureFile)) (rng : Nat → Rat)
    (st : MatchState) (row : RowData) : MatchState :=
  match row.cells.find? (fun c => c.col == nameColIndex) with
  | none => st
  | some nameCell =>
    if nameCell.value == "" then st
    else
      let cleanName := normalizeName nameCell.value
      if cleanName == "" then st
      else
        match mapGet signatures cleanName with
        | none => st
        | some availableSigs =>
          if availableSigs.length > 0 then
            row.cells.foldl
              (matchCellStep nameColIndex mergedCells availableSigs cleanName rng) st
          else st

/-- Embedding of `autoMatchSignatures` (lines 223-334): empty sheet or
empty pool give an empty map; a failed name-column search gives an empty
map (a diagnostic, not a throw — the model is a total function); otherwise
every data row below the header is matched. -/
def autoMatchSignatures (sheetData : SheetData)
    (signatures : List (String × List SignatureFile)) (rng : Nat → Rat) :
    List (String × SignatureAssignment) :=
  if sheetData.rows.length == 0 then []
  else if signatures.length == 0 then []
  else
    match findNameColumn sheetData.rows with
    | none => []
    | some (nameColIndex, headerRowIndex) =>
      ((sheetData.rows.drop (headerRowIndex + 1)).foldl
        (matchRowStep nameColIndex sheetData.mergedCells signatures rng)
        ⟨[], 0⟩).assignments

/-! ## Claims C1 and C7 about the assignment engine -/

/-- A concrete two-row sheet: a header row whose only cell reads `name`, and
a data row for `alice` carrying two signature placeholders (`"1"`) in
columns 2 and 3.  No merged cells, no print area. -/
def sheetC1 : SheetData :=
  ⟨"Sheet1",
   [⟨1, [⟨"name", "A1", 1, 1⟩]⟩,
    ⟨2, [⟨"alice", "A2", 2, 1⟩, ⟨"1", "B2", 2, 2⟩, ⟨"1", "C2", 2, 3⟩]⟩],
   [], none⟩

/-- A signature pool with two variants for `alice`. -/
def sigsC1 : List (String × List SignatureFile) :=
  [("alice",
    [⟨"alice", "alice_v1", "blob:1", 100, 50⟩,
     ⟨"alice", "alice_v2", "blob:2", 100, 50⟩])]

/-- C1 (code bug witness): `autoMatchSignatures` performs no per-row
anti-repetition — each placeholder draws its variant independently and
uniformly at random (lines 306-307), with no "already used variant ids"
set.  On a row with 2 placeholders and 2 available variants, the random
draw that always returns 0 assigns variant `alice_v1` to both placeholders,
so the assigned variant ids are not pairwise distinct even though the
placeholder count does not exceed the variant count.  The repository's own
CHANGELOG and COMPLETION_REPORT (2026-02-19) state the used-variant
tracking was implemented in this function, so the code contradicts its own
documentation. -/
theorem c1_no_anti_repetition_duplicate_variant :
    (autoMatchSignatures sheetC1 sigsC1 (fun _ => 0)).map
      (fun p => p.2.signatureVariantId) = ["alice_v1", "alice_v1"] := by decide

/-- C7: when no cell in the bounded header-search window (the first
`min(50, rows.length)` rows) matches the name-column vocabulary,
`autoMatchSignatures` returns the empty assignment map; the model is a
total function, so "name column not found" is a diagnostic outcome, never
a thrown exception. -/
theorem c7_name_column_not_found_empty (sheetData : SheetData)
    (signatures : List (String × List SignatureFile)) (rng : Nat → Rat)
    (h : ∀ row ∈ sheetData.rows.take 50, ∀ cell ∈ row.cells,
      headerCellMatch cell = false) :
    autoMatchSignatures sheetData signatures rng = [] := by
  have hgo : ∀ (l : List RowData) (r : Nat),
      (∀ row ∈ l, ∀ cell ∈ row.cells, headerCellMatch cell = false) →
      findNameColGo l r = none := by
    intro l
    induction l with
    | nil => intro r _; rfl
    | cons row rest ih =>
      intro r hl
      rw [findNameColGo]
      rw [List.find?_eq_none.mpr (fun cell hc => by
        simp [hl row (List.mem_cons_self row rest) cell hc])]
      exact ih (r + 1) (fun rw hrw => hl rw (List.mem_cons_of_mem row hrw))
  unfold autoMatchSignatures
  by_cases h0 : sheetData.rows.length == 0
  · rw [if_pos h0]
  · rw [if_neg h0]
    by_cases h1 : signatures.length == 0
    · rw [if_pos h1]
    · rw [if_neg h1]
      rw [show findNameColumn sheetData.rows = none from hgo _ 0 h]

theorem c7_name_column_not_found_empty_witness :
    (∀ row ∈ ([⟨1, [⟨"data", "A1", 1, 1⟩]⟩] : List RowData).take 50,
      ∀ cell ∈ row.cells, headerCellMatch cell = false) ∧
    autoMatchSignatures ⟨"S", [⟨1, [⟨"data", "A1", 1, 1⟩]⟩], [], none⟩ sigsC1
      (fun _ => 0) = [] :=
  ⟨by decide,
   c7_name_column_not_found_empty ⟨"S", [⟨1, [⟨"data", "A1", 1, 1⟩]⟩], [], none⟩
     sigsC1 (fun _ => 0) (by decide)⟩

/-! ## Document model builder `parseExcelFile`
(src/services/excelService.ts lines 143-217)

The binary container load is outside the embedding; the model takes the
worksheet as the sequence of its rows (including empty ones, as
`eachRow({includeEmpty: true})` yields them, row numbers 1, 2, ...), each
row given by the already-flattened string values of its cells in column
order (the output of `getCellValueAsString`). -/

/-- The `MAX_ROWS` cap (line 161). -/
def MAX_ROWS : Nat := 10000

/-- The `MAX_CONSECUTIVE_EMPTY_ROWS` threshold (line 162). -/
def MAX_CONSECUTIVE_EMPTY_ROWS : Nat := 100

/-- Mutable state of the row loop. -/
structure ParseState where
  rows : List RowData
  consecutiveEmptyCount : Nat
  totalRowCount : Nat

/-- Cells of one emitted row (the inner `eachCell` loop, lines 174-185):
value, A1 address, 1-based row and column. -/
def buildCells (rowNumber : Nat) (values : List String) : List CellData :=
  values.enum.map (fun p =>
    ⟨p.2, colNumberToLetter (p.1 + 1) ++ toString rowNumber, rowNumber, p.1 + 1⟩)

/-- Embedding of one iteration of the `eachRow` callback (lines 166-197):
skip everything once `totalRowCount` reaches the cap or the empty run
exceeds the threshold; rows with content reset the empty run and count
toward the cap; empty rows are emitted only while the run (after
incrementing) is still within the threshold. -/
def parseRowStep (st : ParseState) (row : Nat × List String) : ParseState :=
  if st.totalRowCount ≥ MAX_ROWS then st
  else if st.consecutiveEmptyCount > MAX_CONSECUTIVE_EMPTY_ROWS then st
  else
    let rowNumber := row.1 + 1
    let cells := buildCells rowNumber row.2
    let hasContent := row.2.any (fun v => jsTrim v != "")
    if hasContent then
      { rows := st.rows ++ [⟨rowNumber, cells⟩],
        consecutiveEmptyCount := 0,
        totalRowCount := st.totalRowCount + 1 }
    else if st.consecutiveEmptyCount + 1 ≤ MAX_CONSECUTIVE_EMPTY_ROWS then
      { rows := st.rows ++ [⟨rowNumber, cells⟩],
        consecutiveEmptyCount := st.consecutiveEmptyCount + 1,
        totalRowCount := st.totalRowCount }
    else
      { rows := st.rows,
        consecutiveEmptyCount := st.consecutiveEmptyCount + 1,
        totalRowCount := st.totalRowCount }

/-- The emitted row list of `parseExcelFile` for a worksheet given as its
sequence of rows. -/
def parseExcelRows (input : List (List String)) : List RowData :=
  (input.enum.foldl parseRowStep ⟨[], 0, 0⟩).rows

/-- Embedding of the tail of `parseExcelFile` (lines 199-216): empty output
is the thrown "no data" error; otherwise the sheet model carries the rows,
the merge snapshot and the print area. -/
def parseExcelFileModel (name : String) (input : List (List String))
    (mergedCells : List String) (printArea : Option String) :
    Except String SheetData :=
  let rows := parseExcelRows input
  if rows.length == 0 then Except.error "파일에 데이터가 없습니다."
  else Except.ok ⟨name, rows, mergedCells, printArea⟩

/-! ## Claim C8: infinite-row protection -/

/-- Whether an emitted row has any non-blank cell (the `hasContent` test
restated on `RowData`). -/
def contentRow (r : RowData) : Bool := r.cells.any (fun c => jsTrim c.value != "")

theorem buildCells_content (rowNumber : Nat) (values : List String) :
    contentRow ⟨rowNumber, buildCells rowNumber values⟩ =
      values.any (fun v => jsTrim v != "") := by
  suffices h : ∀ (k : Nat) (vs : List String),
      ((List.enumFrom k vs).map (fun p =>
          (⟨p.2, colNumberToLetter (p.1 + 1) ++ toString rowNumber, rowNumber,
            p.1 + 1⟩ : CellData))).any (fun c => jsTrim c.value != "") =
        vs.any (fun v => jsTrim v != "") by
    simpa only [contentRow, buildCells, List.enum] using h 0 values
  intro k vs
  induction vs generalizing k with
  | nil => rfl
  | cons v tail ih => simp only [List.enumFrom, List.map_cons, List.any_cons, ih]

/-- Behaviour of one loop iteration when neither stop-guard has fired yet. -/
theorem parseRowStep_eq (st : ParseState) (row : Nat × List String)
    (h1 : ¬ st.totalRowCount ≥ MAX_ROWS)
    (h2 : ¬ st.consecutiveEmptyCount > MAX_CONSECUTIVE_EMPTY_ROWS) :
    parseRowStep st row =
      if row.2.any (fun v => jsTrim v != "") then
        ⟨st.rows ++ [⟨row.1 + 1, buildCells (row.1 + 1) row.2⟩], 0, st.totalRowCount + 1⟩
      else if st.consecutiveEmptyCount + 1 ≤ MAX_CONSECUTIVE_EMPTY_ROWS then
        ⟨st.rows ++ [⟨row.1 + 1, buildCells (row.1 + 1) row.2⟩],
         st.consecutiveEmptyCount + 1, st.totalRowCount⟩
      else ⟨st.rows, st.consecutiveEmptyCount + 1, st.totalRowCount⟩ := by
  simp only [parseRowStep, if_neg h1, if_neg h2]

/-- The budget argument: every step of the row loop spends at least as much
of this quantity as it emits rows. -/
def parseBudget (st : ParseState) : Nat :=
  st.rows.length + 101 * (10000 - st.totalRowCount) +
    (100 - min st.consecutiveEmptyCount 100)

theorem parseRowStep_budget (st : ParseState) (row : Nat × List String) :
    parseBudget (parseRowStep st row) ≤ parseBudget st := by
  by_cases h1 : st.totalRowCount ≥ MAX_ROWS
  · unfold parseRowStep
    rw [if_pos h1]
  · by_cases h2 : st.consecutiveEmptyCount > MAX_CONSECUTIVE_EMPTY_ROWS
    · unfold parseRowStep
      rw [if_neg h1, if_pos h2]
    · rw [parseRowStep_eq st row h1 h2]
      unfold parseBudget MAX_ROWS MAX_CONSECUTIVE_EMPTY_ROWS at *
      split
      · simp only [List.length_append, List.length_cons, List.length_nil]
        omega
      · split
        · simp only [List.length_append, List.length_cons, List.length_nil]
          omega
        · simp only []
          omega

theorem foldl_parseRowStep_budget (l : List (Nat × List String)) :
    ∀ st : ParseState, parseBudget (l.foldl parseRowStep st) ≤ parseBudget st := by
  induction l with
  | nil => intro st; exact Nat.le_refl _
  | cons row rest ih =>
    intro st
    exact Nat.le_trans (ih (parseRowStep st row)) (parseRowStep_budget st row)

theorem parseRowStep_inv (st : ParseState) (row : Nat × List String)
    (h : st.rows.countP contentRow ≤ st.totalRowCount ∧ st.totalRowCount ≤ 10000) :
    (parseRowStep st row).rows.countP contentRow ≤ (parseRowStep st row).totalRowCount ∧
      (parseRowStep st row).totalRowCount ≤ 10000 := by
  by_cases h1 : st.totalRowCount ≥ MAX_ROWS
  · unfold parseRowStep
    rw [if_pos h1]
    exact h
  · by_cases h2 : st.consecutiveEmptyCount > MAX_CONSECUTIVE_EMPTY_ROWS
    · unfold parseRowStep
      rw [if_neg h1, if_pos h2]
      exact h
    · rw [parseRowStep_eq st row h1 h2]
      unfold MAX_ROWS at h1
      by_cases hc : (row.2.any fun v => jsTrim v != "") = true
      · rw [if_pos hc]
        dsimp only
        constructor
        · rw [List.countP_append, List.countP_cons, List.countP_nil]
          split <;> omega
        · omega
      · rw [if_neg hc]
        split
        · dsimp only
          constructor
          · rw [List.countP_append, List.countP_cons, List.countP_nil]
            rw [show contentRow ⟨row.1 + 1, buildCells (row.1 + 1) row.2⟩ = false from by
              rw [buildCells_content]
              simpa using hc]
            simpa using h.1
          · exact h.2
        · exact h

theorem foldl_parseRowStep_inv (l : List (Nat × List String)) :
    ∀ st : ParseState,
      (st.rows.countP contentRow ≤ st.totalRowCount ∧ st.totalRowCount ≤ 10000) →
      ((l.foldl parseRowStep st).rows.countP contentRow ≤
          (l.foldl parseRowStep st).totalRowCount ∧
        (l.foldl parseRowStep st).totalRowCount ≤ 10000) := by
  induction l with
  | nil => intro st h; exact h
  | cons row rest ih =>
    intro st h
    exact ih (parseRowStep st row) (parseRowStep_inv st row h)

/-- C8 (amended): the caps bound the output, but not at 10,000 emitted
rows: the `MAX_ROWS = 10000` cap counts only rows with content, and each
run of consecutive empty rows contributes at most
`MAX_CONSECUTIVE_EMPTY_ROWS = 100` emitted rows, so the emitted row list
holds at most 10,000 content rows and at most
`101 * 10000 + 100 = 1010100` rows in total, for every input worksheet. -/
theorem c8_amended_row_list_bounded (input : List (List String)) :
    (parseExcelRows input).length ≤ 1010100 ∧
      (parseExcelRows input).countP contentRow ≤ 10000 := by
  constructor
  · have hb := foldl_parseRowStep_budget input.enum ⟨[], 0, 0⟩
    have hle : (input.enum.foldl parseRowStep ⟨[], 0, 0⟩).rows.length ≤
        parseBudget (input.enum.foldl parseRowStep ⟨[], 0, 0⟩) := by
      unfold parseBudget
      omega
    have hinit : parseBudget ⟨[], 0, 0⟩ = 1010100 := by
      unfold parseBudget
      simp
    unfold parseExcelRows
    omega
  · have h := foldl_parseRowStep_inv input.enum ⟨[], 0, 0⟩ (by simp)
    unfold parseExcelRows
    omega

/-- Alternating content/empty rows: `n` copies of a one-cell `"x"` row
followed by a one-cell blank row. -/
def cePairs : Nat → List (List String)
  | 0 => []
  | n + 1 => ["x"] :: [""] :: cePairs n

theorem cePairs_fold (n : Nat) : ∀ (k : Nat) (st : ParseState),
    st.totalRowCount + n ≤ 9999 → st.consecutiveEmptyCount ≤ 100 →
    ((List.enumFrom k (cePairs n)).foldl parseRowStep st).rows.length =
      st.rows.length + 2 * n := by
  induction n with
  | zero => intro k st _ _; rfl
  | succ n ih =>
    intro k st htot hcons
    rw [cePairs]
    rw [show List.enumFrom k (["x"] :: [""] :: cePairs n) =
        (k, ["x"]) :: (k + 1, [""]) :: List.enumFrom (k + 2) (cePairs n) from by
      simp [List.enumFrom]]
    rw [List.foldl_cons, List.foldl_cons]
    have e1 : parseRowStep st (k, ["x"]) =
        ⟨st.rows ++ [⟨k + 1, buildCells (k + 1) ["x"]⟩], 0, st.totalRowCount + 1⟩ := by
      rw [parseRowStep_eq st (k, ["x"]) (by unfold MAX_ROWS; omega)
        (by unfold MAX_CONSECUTIVE_EMPTY_ROWS; omega)]
      dsimp only
      rw [if_pos (show ((["x"] : List String).any fun v => jsTrim v != "") = true
        from by decide)]
    have e2 : parseRowStep
        (⟨st.rows ++ [⟨k + 1, buildCells (k + 1) ["x"]⟩], 0,
          st.totalRowCount + 1⟩ : ParseState) (k + 1, [""]) =
        ⟨(st.rows ++ [⟨k + 1, buildCells (k + 1) ["x"]⟩]) ++
            [⟨k + 2, buildCells (k + 2) [""]⟩], 1, st.totalRowCount + 1⟩ := by
      rw [parseRowStep_eq _ (k + 1, [""]) (by unfold MAX_ROWS; dsimp only; omega)
        (by unfold MAX_CONSECUTIVE_EMPTY_ROWS; dsimp only; omega)]
      dsimp only
      rw [if_neg (show ¬ (([""] : List String).any fun v => jsTrim v != "") = true
        from by decide)]
      rw [if_pos (show 0 + 1 ≤ MAX_CONSECUTIVE_EMPTY_ROWS from by decide)]
    rw [e1, e2]
    rw [ih (k + 2) _ (by dsimp only; omega) (by dsimp only; omega)]
    dsimp only
    simp only [List.length_append, List.length_cons, List.length_nil]
    omega

/-- C8 counterexample: the claim says row emission stops once the
emitted-row cap of 10,000 is reached, but the cap counter counts only
content rows.  Feeding 5,001 content rows alternating with 5,001 blank
rows keeps the content count at 5,001 (and every empty run at length 1),
so all 10,002 rows are emitted — more than 10,000. -/
theorem parseExcelRows_def (input : List (List String)) :
    parseExcelRows input = (input.enum.foldl parseRowStep ⟨[], 0, 0⟩).rows := rfl

theorem c8_counterexample_cap_counts_content_rows_only :
    (parseExcelRows (cePairs 5001)).length = 10002 ∧
      10000 < (parseExcelRows (cePairs 5001)).length := by
  have h2 : (parseExcelRows (cePairs 5001)).length = 10002 :=
    (congrArg List.length (parseExcelRows_def (cePairs 5001))).trans
      ((cePairs_fold 5001 0 ⟨[], 0, 0⟩ (by norm_num) (by norm_num)).trans (by norm_num))
  exact ⟨h2, by omega⟩

/-! ## Document reconstruction `generateFinalExcel`
(src/services/excelService.ts lines 404-919)

The function is embedded region by region, following its own step
structure: the placement guards (lines 526-544), the placeholder-clearing
pre-pass (lines 548-579), the image-insertion main pass (lines 586-728),
the merge/print-area restoration (lines 736-817) and the save-and-validate
step (lines 891-915).  The ExcelJS workbook is represented by the parts
these regions touch: the cell-value grid, the merge-range list, the print
area, the media list counter.  The asynchronous canvas rasterizer
`rotateImage` is an oracle parameter `rotate : String → Int → String`
returning the data-URL, with `""` standing for every failure branch of the
TS function (exactly its sentinel); the cooperative `setTimeout` yields
carry no state and are omitted. -/

/-- The parsed print-area bounds `printAreaRows`/`printAreaCols`
(lines 448-449): either the parsed declared print area or the
whole-sheet fallback. -/
structure PrintBounds where
  rowStart : Nat
  rowEnd : Nat
  colStart : Nat
  colEnd : Nat
deriving DecidableEq

/-- Embedding of the closure `isInPrintArea` (lines 526-529). -/
def isInPrintArea (pb : PrintBounds) (row col : Nat) : Bool :=
  pb.rowStart ≤ row && row ≤ pb.rowEnd && pb.colStart ≤ col && col ≤ pb.colEnd

/-- Embedding of the closure `canPlaceSignature` (lines 532-544): inside a
merged range only the top-left anchor is allowed; outside any merge every
cell is allowed. -/
def canPlaceSignature (row col : Nat) (originalMergedCells : List String) : Bool :=
  if isCellInMergedRange row col originalMergedCells then
    isTopLeftOfMergedCell row col originalMergedCells
  else true

/-- Model of `parseInt(str, 10)` restricted to the `row:col` keys the
engine builds: leading ASCII digits; anything else (`NaN`, or a negative
sign which would in any case fail the `isInPrintArea` bounds below) is
`none` and leads to the same skip outcome. -/
def jsParseKeyNat (s : String) : Option Nat :=
  let digits := s.data.takeWhile isAsciiDigitChar
  if digits ≠ [] then some (digitsToNat digits) else none

/-- Parse an assignment-map key `"row:col"` (line 550-552). -/
def parseAssignmentKey (key : String) : Option (Nat × Nat) :=
  let parts := jsSplit key ':'
  match jsParseKeyNat (parts.getD 0 ""), jsParseKeyNat (parts.getD 1 "") with
  | some row, some col => some (row, col)
  | _, _ => none

/-- State of the placeholder-clearing pre-pass: the cell-value grid
(`none` is a null cell value) and the shared `skippedCount`. -/
structure PreState where
  cells : Nat → Nat → Option String
  skippedCount : Nat

/-- Point update of the cell grid (`cell.value = null`). -/
def clearCell (cells : Nat → Nat → Option String) (row col : Nat) :
    Nat → Nat → Option String :=
  fun r c => if r = row ∧ c = col then none else cells r c

/-- Embedding of one iteration of the pre-pass loop (lines 548-579): skip
positions outside the print area or placement-illegal (counting them
skipped); otherwise, if the whitespace-stripped cell text is a signature
placeholder, null the cell value. -/
def preStep (pb : PrintBounds) (originalMergedCells : List String)
    (st : PreState) (entry : String × SignatureAssignment) : PreState :=
  match parseAssignmentKey entry.1 with
  | none => { st with skippedCount := st.skippedCount + 1 }
  | some (row, col) =>
    if !isInPrintArea pb row col then
      { st with skippedCount := st.skippedCount + 1 }
    else if !canPlaceSignature row col originalMergedCells then
      { st with skippedCount := st.skippedCount + 1 }
    else
      let cellVal := match st.cells row col with
        | some v => stripWs v
        | none => ""
      if isSignaturePlaceholder cellVal then
        { st with cells := clearCell st.cells row col }
      else st

/-- The pre-pass over the whole assignment map. -/
def prePassRun (pb : PrintBounds) (originalMergedCells : List String)
    (cells0 : Nat → Nat → Option String)
    (assignments : List (String × SignatureAssignment)) : PreState :=
  assignments.foldl (preStep pb originalMergedCells) ⟨cells0, 0⟩

/-- Model of `Math.round` (half away from zero is JS half-up:
`Math.round(x) = ⌊x + 0.5⌋`). -/
def jsRound (q : Rat) : Int := Int.ediv ((q + 1/2).num) ((q + 1/2).den)

/-- Embedding of the closure `findSigFile` (lines 520-523). -/
def findSigFile (signaturesMap : List (String × List SignatureFile))
    (name variant : String) : Option SignatureFile :=
  match mapGet signaturesMap name with
  | none => none
  | some list => list.find? (fun s => s.variant == variant)

/-- State of the image-insertion main pass: the per-run raster cache
(`imageCache`, keyed by the string `` `${variant}_rot${rotation}` ``), the
workbook media counter (`workbook.addImage` ids), the anchored placements
(`worksheet.addImage` calls, recorded by their 1-based assignment
position and image id), the three counters, and the log of `rotateImage`
invocations by `(variantId, rotationDeg)`. -/
structure MainState where
  imageCache : List (String × Nat)
  nextImageId : Nat
  placed : List (Nat × Nat × Nat)
  processedCount : Nat
  failureCount : Nat
  skippedCount : Nat
  rotateLog : List (String × Int)

/-- The memoization key `` `${sigFile.variant}_rot${assignment.rotation}` ``
(line 618).  The rotation renders as a decimal integer, so the key
determines and is determined by the `(variantId, rotationDeg)` pair. -/
def cacheKeyOf (variant : String) (rotation : Int) : String :=
  variant ++ "_rot" ++ toString rotation

/-- The placement tail of the loop body (lines 664-723): coordinate
validity check, box geometry from the asset's aspect ratio, EMU offsets,
then the `worksheet.addImage` anchor.  The geometry is computed as in the
source; only the anchor position and image id are recorded in the state,
since no claim mentions the box extents. -/
def placeImage (st : MainState) (assignment : SignatureAssignment)
    (sigFile : SignatureFile) (imageId : Nat) : MainState :=
  let targetCol : Int := (assignment.col : Int) - 1
  let targetRow : Int := (assignment.row : Int) - 1
  if targetRow < 0 ∨ targetCol < 0 then
    { st with failureCount := st.failureCount + 1 }
  else
    let MAX_BOX_WIDTH : Rat := 140 * assignment.scale
    let MAX_BOX_HEIGHT : Rat := 65 * assignment.scale
    let imgAspect : Rat := sigFile.width / sigFile.height
    let firstWidth : Rat := MAX_BOX_WIDTH
    let firstHeight : Rat := MAX_BOX_WIDTH / imgAspect
    let finalWidth : Rat := if firstHeight > MAX_BOX_HEIGHT then MAX_BOX_HEIGHT * imgAspect else firstWidth
    let finalHeight : Rat := if firstHeight > MAX_BOX_HEIGHT then MAX_BOX_HEIGHT else firstHeight
    let _intWidth := jsRound finalWidth
    let _intHeight := jsRound finalHeight
    let baseOffsetX : Int := 5 + assignment.offsetX
    let baseOffsetY : Int := 2 + assignment.offsetY
    let _emuColOff : Int := max 0 (baseOffsetX * 9525)
    let _emuRowOff : Int := max 0 (baseOffsetY * 9525)
    { st with
      placed := st.placed ++ [(assignment.row, assignment.col, imageId)],
      processedCount := st.processedCount + 1 }

/-- The `base64Clean` extraction (lines 632-633):
`parts.length > 1 ? parts[1] : parts[0]` of `dataUrl.split(',')`. -/
def base64CleanOf (rotatedDataUrl : String) : String :=
  let parts := jsSplit rotatedDataUrl ','
  if parts.length > 1 then parts.getD 1 "" else parts.getD 0 ""

/-- Embedding of one iteration of the image-insertion loop
(lines 586-728): print-area and merge guards count skips; a missing
signature file counts a failure; otherwise the raster cache is consulted
with the `(variant, rotation)` key — on a miss `rotateImage` runs (logged),
an empty data-URL or empty base64 payload counts a failure and caches
nothing, a success registers a new workbook image id in the cache; finally
the image is anchored at the assignment's cell. -/
def mainStep (pb : PrintBounds) (originalMergedCells : List String)
    (signaturesMap : List (String × List SignatureFile))
    (rotate : String → Int → String)
    (st : MainState) (assignment : SignatureAssignment) : MainState :=
  if !isInPrintArea pb assignment.row assignment.col then
    { st with skippedCount := st.skippedCount + 1 }
  else if !canPlaceSignature assignment.row assignment.col originalMergedCells then
    { st with skippedCount := st.skippedCount + 1 }
  else
    match findSigFile signaturesMap assignment.signatureBaseName
        assignment.signatureVariantId with
    | none => { st with failureCount := st.failureCount + 1 }
    | some sigFile =>
      let cacheKey := cacheKeyOf sigFile.variant assignment.rotation
      match mapGet st.imageCache cacheKey with
      | some imageId => placeImage st assignment sigFile imageId
      | none =>
        let rotatedDataUrl := rotate sigFile.previewUrl assignment.rotation
        let st := { st with
          rotateLog := st.rotateLog ++ [(sigFile.variant, assignment.rotation)] }
        if rotatedDataUrl == "" then
          { st with failureCount := st.failureCount + 1 }
        else
          let base64Clean := base64CleanOf rotatedDataUrl
          if base64Clean == "" then
            { st with failureCount := st.failureCount + 1 }
          else
            let imageId := st.nextImageId
            let st := { st with
              nextImageId := st.nextImageId + 1,
              imageCache := mapSet st.imageCache cacheKey imageId }
            placeImage st assignment sigFile imageId

/-- The main pass over `assignmentValues = Array.from(assignments.values())`
in insertion order (lines 581-728). -/
def mainPassRun (pb : PrintBounds) (originalMergedCells : List String)
    (signaturesMap : List (String × List SignatureFile))
    (rotate : String → Int → String)
    (assignmentValues : List SignatureAssignment) : MainState :=
  assignmentValues.foldl (mainStep pb originalMergedCells signaturesMap rotate)
    ⟨[], 0, [], 0, 0, 0, []⟩

/-- Both placement guards at once: inside the print area and a legal merge
anchor. -/
def legalPlacement (pb : PrintBounds) (originalMergedCells : List String)
    (row col : Nat) : Bool :=
  isInPrintArea pb row col && canPlaceSignature row col originalMergedCells

theorem mapGet_eq_none_iff {α : Type} (m : List (String × α)) (k : String) :
    mapGet m k = none ↔ ∀ p ∈ m, ¬ (p.1 == k) = true := by
  unfold mapGet
  rw [Option.map_eq_none', List.find?_eq_none]

theorem mapSet_of_none {α : Type} {m : List (String × α)} {k : String} (v : α)
    (h : mapGet m k = none) : mapSet m k v = m ++ [(k, v)] := by
  unfold mapSet
  rw [if_neg]
  rw [List.any_eq_true]
  push_neg
  exact (mapGet_eq_none_iff m k).mp h

theorem mapGet_append_self {α : Type} {m : List (String × α)} {k : String}
    (v : α) (h : mapGet m k = none) : mapGet (m ++ [(k, v)]) k = some v := by
  unfold mapGet at h ⊢
  rw [List.find?_append]
  rw [Option.map_eq_none'.mp h]
  simp [List.find?]

theorem mapGet_append_preserve {α : Type} {m : List (String × α)} {k' : String}
    (k : String) (v : α) (h : (mapGet m k').isSome = true) :
    mapGet (m ++ [(k, v)]) k' = mapGet m k' := by
  unfold mapGet at h ⊢
  rw [List.find?_append]
  cases hf : m.find? (fun p => p.1 == k') with
  | none => rw [hf] at h; simp at h
  | some p => simp

/-- `placeImage` with its guard and record updates flattened. -/
theorem placeImage_eq (st : MainState) (a : SignatureAssignment)
    (s : SignatureFile) (i : Nat) :
    placeImage st a s i =
      if (a.row : Int) - 1 < 0 ∨ (a.col : Int) - 1 < 0 then
        { st with failureCount := st.failureCount + 1 }
      else
        { st with placed := st.placed ++ [(a.row, a.col, i)],
                  processedCount := st.processedCount + 1 } := by
  simp only [placeImage]

theorem placeImage_placed (st : MainState) (a : SignatureAssignment)
    (s : SignatureFile) (i : Nat) :
    ∀ p ∈ (placeImage st a s i).placed, p ∈ st.placed ∨ p = (a.row, a.col, i) := by
  intro p hp
  rw [placeImage_eq] at hp
  split at hp
  · exact Or.inl hp
  · dsimp only at hp
    rcases List.mem_append.mp hp with h | h
    · exact Or.inl h
    · simp at h
      exact Or.inr (by simp [h])

theorem placeImage_fields (st : MainState) (a : SignatureAssignment)
    (s : SignatureFile) (i : Nat) :
    (placeImage st a s i).failureCount + (placeImage st a s i).processedCount =
        st.failureCount + st.processedCount + 1 ∧
      (placeImage st a s i).skippedCount = st.skippedCount ∧
      (placeImage st a s i).rotateLog = st.rotateLog ∧
      (placeImage st a s i).imageCache = st.imageCache := by
  rw [placeImage_eq]
  split
  · dsimp only
    exact ⟨by omega, rfl, rfl, rfl⟩
  · dsimp only
    exact ⟨by omega, rfl, rfl, rfl⟩

/-- Number of `rotateImage` invocations recorded for one
`(variantId, rotationDeg)` pair. -/
def rotateCallCount (st : MainState) (v : String) (d : Int) : Nat :=
  st.rotateLog.countP (fun e => decide (e = (v, d)))

theorem mainStep_facts (pb : PrintBounds) (originalMergedCells : List String)
    (signaturesMap : List (String × List SignatureFile))
    (rotate : String → Int → String) (st : MainState) (a : SignatureAssignment) :
    (∀ p ∈ (mainStep pb originalMergedCells signaturesMap rotate st a).placed,
        p ∈ st.placed ∨
          (p.1 = a.row ∧ p.2.1 = a.col ∧
            legalPlacement pb originalMergedCells a.row a.col = true)) ∧
      (mainStep pb originalMergedCells signaturesMap rotate st a).skippedCount =
        st.skippedCount +
          (if legalPlacement pb originalMergedCells a.row a.col = true then 0 else 1) ∧
      (mainStep pb originalMergedCells signaturesMap rotate st a).failureCount +
          (mainStep pb originalMergedCells signaturesMap rotate st a).processedCount =
        st.failureCount + st.processedCount +
          (if legalPlacement pb originalMergedCells a.row a.col = true then 1 else 0) := by
  unfold mainStep
  by_cases h1 : isInPrintArea pb a.row a.col = true
  · rw [if_neg (by simp [h1])]
    by_cases h2 : canPlaceSignature a.row a.col originalMergedCells = true
    · rw [if_neg (by simp [h2])]
      have hleg : legalPlacement pb originalMergedCells a.row a.col = true := by
        simp [legalPlacement, h1, h2]
      rw [hleg]
      cases hfind : findSigFile signaturesMap a.signatureBaseName
          a.signatureVariantId with
      | none =>
        dsimp only
        exact ⟨fun p hp => Or.inl hp, by simp, by simp; omega⟩
      | some sigFile =>
        dsimp only
        cases hcache : mapGet st.imageCache (cacheKeyOf sigFile.variant a.rotation) with
        | some imageId =>
          dsimp only
          refine ⟨fun p hp => ?_, ?_, ?_⟩
          · rcases placeImage_placed st a sigFile imageId p hp with h | h
            · exact Or.inl h
            · exact Or.inr ⟨by simp [h], by simp [h], rfl⟩
          · rw [((placeImage_fields st a sigFile imageId).2).1]
            simp
          · rw [(placeImage_fields st a sigFile imageId).1]
            simp
        | none =>
          dsimp only
          by_cases hrot : (rotate sigFile.previewUrl a.rotation == "") = true
          · rw [if_pos hrot]
            dsimp only
            exact ⟨fun p hp => Or.inl hp, by simp, by simp; omega⟩
          · rw [if_neg hrot]
            by_cases hb64 : (base64CleanOf (rotate sigFile.previewUrl a.rotation) == "") = true
            · rw [if_pos hb64]
              dsimp only
              exact ⟨fun p hp => Or.inl hp, by simp, by simp; omega⟩
            · rw [if_neg hb64]
              set st2 : MainState :=
                { imageCache := mapSet st.imageCache
                    (cacheKeyOf sigFile.variant a.rotation) st.nextImageId,
                  nextImageId := st.nextImageId + 1,
                  placed := st.placed,
                  processedCount := st.processedCount,
                  failureCount := st.failureCount,
                  skippedCount := st.skippedCount,
                  rotateLog := st.rotateLog ++ [(sigFile.variant, a.rotation)] } with hst2
              refine ⟨fun p hp => ?_, ?_, ?_⟩
              · rcases placeImage_placed st2 a sigFile st.nextImageId p hp with h | h
                · rw [hst2] at h
                  exact Or.inl h
                · exact Or.inr ⟨by simp [h], by simp [h], rfl⟩
              · rw [((placeImage_fields st2 a sigFile st.nextImageId).2).1, hst2]
                simp
              · rw [(placeImage_fields st2 a sigFile st.nextImageId).1, hst2]
                simp
    · rw [if_pos (by simp [h2])]
      have hleg : legalPlacement pb originalMergedCells a.row a.col = false := by
        simp only [legalPlacement]
        simp [h2]
      rw [hleg]
      exact ⟨fun p hp => Or.inl hp, by simp, by simp⟩
  · rw [if_pos (by simp [h1])]
    have hleg : legalPlacement pb originalMergedCells a.row a.col = false := by
      simp only [legalPlacement]
      simp [h1]
    rw [hleg]
    exact ⟨fun p hp => Or.inl hp, by simp, by simp⟩

theorem mainPass_fold_facts (pb : PrintBounds) (originalMergedCells : List String)
    (signaturesMap : List (String × List SignatureFile))
    (rotate : String → Int → String) (assignmentValues : List SignatureAssignment) :
    ∀ st : MainState,
      (∀ p ∈ (assignmentValues.foldl
          (mainStep pb originalMergedCells signaturesMap rotate) st).placed,
        p ∈ st.placed ∨
          legalPlacement pb originalMergedCells p.1 p.2.1 = true) ∧
      (assignmentValues.foldl
          (mainStep pb originalMergedCells signaturesMap rotate) st).skippedCount =
        st.skippedCount + assignmentValues.countP
          (fun a => !legalPlacement pb originalMergedCells a.row a.col) ∧
      (assignmentValues.foldl
            (mainStep pb originalMergedCells signaturesMap rotate) st).failureCount +
          (assignmentValues.foldl
            (mainStep pb originalMergedCells signaturesMap rotate) st).processedCount =
        st.failureCount + st.processedCount + assignmentValues.countP
          (fun a => legalPlacement pb originalMergedCells a.row a.col) := by
  induction assignmentValues with
  | nil =>
    intro st
    exact ⟨fun p hp => Or.inl hp, by simp, by simp⟩
  | cons a rest ih =>
    intro st
    rw [List.foldl_cons, List.countP_cons, List.countP_cons]
    obtain ⟨hstep1, hstep2, hstep3⟩ :=
      mainStep_facts pb originalMergedCells signaturesMap rotate st a
    obtain ⟨hf1, hf2, hf3⟩ :=
      ih (mainStep pb originalMergedCells signaturesMap rotate st a)
    refine ⟨fun p hp => ?_, ?_, ?_⟩
    · rcases hf1 p hp with h | h
      · rcases hstep1 p h with h' | h'
        · exact Or.inl h'
        · exact Or.inr (by rw [h'.1, h'.2.1]; exact h'.2.2)
      · exact Or.inr h
    · rw [hf2, hstep2]
      by_cases hleg : legalPlacement pb originalMergedCells a.row a.col = true <;>
        simp [hleg] <;> omega
    · rw [hf3, hstep3]
      by_cases hleg : legalPlacement pb originalMergedCells a.row a.col = true <;>
        simp [hleg] <;> omega

/-- C2: the image-insertion pass never anchors an image outside the
declared print area nor at a non-anchor cell of a merged range: every
placement recorded by the main pass satisfies both placement guards; an
assignment at an illegal position is skipped rather than performed. -/
theorem c2_placement_legality (pb : PrintBounds) (originalMergedCells : List String)
    (signaturesMap : List (String × List SignatureFile))
    (rotate : String → Int → String) (assignmentValues : List SignatureAssignment)
    (p : Nat × Nat × Nat)
    (h : p ∈ (mainPassRun pb originalMergedCells signaturesMap rotate
      assignmentValues).placed) :
    isInPrintArea pb p.1 p.2.1 = true ∧
      canPlaceSignature p.1 p.2.1 originalMergedCells = true := by
  have hfold := (mainPass_fold_facts pb originalMergedCells signaturesMap rotate
    assignmentValues ⟨[], 0, [], 0, 0, 0, []⟩).1 p h
  rcases hfold with h' | h'
  · simp at h'
  · simp only [legalPlacement, Bool.and_eq_true] at h'
    exact h'

/-- Concrete print bounds rows 1-10, columns 1-10. -/
def pbW : PrintBounds := ⟨1, 10, 1, 10⟩

/-- A rasterizer oracle that always succeeds. -/
def rotOk : String → Int → String := fun _ _ => "data:image/png;base64,AAAA"

/-- A single legal assignment at row 2, column 3. -/
def aW : SignatureAssignment := ⟨2, 3, "alice", "alice_v1", 2, 1, 0, 0⟩

theorem c2_placement_legality_witness :
    ((2, 3, 0) ∈ (mainPassRun pbW [] sigsC1 rotOk [aW]).placed) ∧
      (isInPrintArea pbW 2 3 = true ∧ canPlaceSignature 2 3 [] = true) :=
  ⟨by decide, c2_placement_legality pbW [] sigsC1 rotOk [aW] (2, 3, 0) (by decide)⟩

theorem preStep_frame (pb : PrintBounds) (originalMergedCells : List String)
    (st : PreState) (entry : String × SignatureAssignment) {r c : Nat}
    (h : isInPrintArea pb r c = false) :
    (preStep pb originalMergedCells st entry).cells r c = st.cells r c := by
  unfold preStep
  cases hk : parseAssignmentKey entry.1 with
  | none => rfl
  | some rc =>
    obtain ⟨row, col⟩ := rc
    dsimp only
    by_cases h1 : isInPrintArea pb row col = true
    · rw [if_neg (by simp [h1])]
      by_cases h2 : canPlaceSignature row col originalMergedCells = true
      · rw [if_neg (by simp [h2])]
        split
        · dsimp only [clearCell]
          rw [if_neg]
          rintro ⟨rfl, rfl⟩
          simp [h1] at h
        · rfl
      · rw [if_pos (by simp [h2])]
    · rw [if_pos (by simp [h1])]

theorem prePass_frame (pb : PrintBounds) (originalMergedCells : List String)
    (assignments : List (String × SignatureAssignment)) {r c : Nat}
    (h : isInPrintArea pb r c = false) :
    ∀ st : PreState,
      (assignments.foldl (preStep pb originalMergedCells) st).cells r c =
        st.cells r c := by
  induction assignments with
  | nil => intro st; rfl
  | cons entry rest ih =>
    intro st
    rw [List.foldl_cons, ih (preStep pb originalMergedCells st entry),
      preStep_frame pb originalMergedCells st entry h]

/-- C5: an assignment whose position lies outside the declared print-area
bounds leaves the worksheet untouched and is only counted as skipped: the
pre-pass does not change the cell value at any out-of-area position, the
main pass anchors no image there, out-of-area assignments are tallied in
`skippedCount` (together with the other placement-illegal ones), and every
increment of `failureCount`/`processedCount` comes from an assignment that
passed both placement guards. -/
theorem c5_out_of_print_area_untouched (pb : PrintBounds)
    (originalMergedCells : List String) (cells0 : Nat → Nat → Option String)
    (signaturesMap : List (String × List SignatureFile))
    (rotate : String → Int → String)
    (assignments : List (String × SignatureAssignment)) (r c : Nat)
    (h : isInPrintArea pb r c = false) :
    (prePassRun pb originalMergedCells cells0 assignments).cells r c = cells0 r c ∧
      (∀ i, (r, c, i) ∉ (mainPassRun pb originalMergedCells signaturesMap rotate
        (assignments.map (fun e => e.2))).placed) ∧
      (mainPassRun pb originalMergedCells signaturesMap rotate
          (assignments.map (fun e => e.2))).skippedCount =
        (assignments.map (fun e => e.2)).countP
          (fun a => !legalPlacement pb originalMergedCells a.row a.col) ∧
      (mainPassRun pb originalMergedCells signaturesMap rotate
            (assignments.map (fun e => e.2))).failureCount +
          (mainPassRun pb originalMergedCells signaturesMap rotate
            (assignments.map (fun e => e.2))).processedCount =
        (assignments.map (fun e => e.2)).countP
          (fun a => legalPlacement pb originalMergedCells a.row a.col) := by
  obtain ⟨hp, hs, hf⟩ := mainPass_fold_facts pb originalMergedCells signaturesMap
    rotate (assignments.map (fun e => e.2)) ⟨[], 0, [], 0, 0, 0, []⟩
  refine ⟨prePass_frame pb originalMergedCells assignments h _, ?_, ?_, ?_⟩
  · intro i hmem
    rcases hp (r, c, i) hmem with h' | h'
    · simp at h'
    · simp only [legalPlacement, Bool.and_eq_true] at h'
      rw [h] at h'
      exact Bool.false_ne_true h'.1
  · simpa using hs
  · simpa using hf

/-- A one-cell grid holding a placeholder marker at row 25, column 1 —
outside the `pbW` print bounds (rows 1-10). -/
def cells0W : Nat → Nat → Option String :=
  fun r c => if r = 25 ∧ c = 1 then some "1" else none

/-- An assignment at the out-of-print-area position (25, 1), keyed the way
the engine keys its map. -/
def assignsW : List (String × SignatureAssignment) :=
  [("25:1", ⟨25, 1, "alice", "alice_v1", 2, 1, 0, 0⟩)]

theorem c5_out_of_print_area_untouched_witness :
    (isInPrintArea pbW 25 1 = false) ∧
      ((prePassRun pbW [] cells0W assignsW).cells 25 1 = cells0W 25 1 ∧
        (∀ i, (25, 1, i) ∉ (mainPassRun pbW [] sigsC1 rotOk
          (assignsW.map (fun e => e.2))).placed) ∧
        (mainPassRun pbW [] sigsC1 rotOk
            (assignsW.map (fun e => e.2))).skippedCount =
          (assignsW.map (fun e => e.2)).countP
            (fun a => !legalPlacement pbW [] a.row a.col) ∧
        (mainPassRun pbW [] sigsC1 rotOk
              (assignsW.map (fun e => e.2))).failureCount +
            (mainPassRun pbW [] sigsC1 rotOk
              (assignsW.map (fun e => e.2))).processedCount =
          (assignsW.map (fun e => e.2)).countP
            (fun a => legalPlacement pbW [] a.row a.col)) :=
  ⟨by decide,
   c5_out_of_print_area_untouched pbW [] cells0W sigsC1 rotOk assignsW 25 1
     (by decide)⟩

/-- The cache invariant behind the memoization property: each
`(variantId, rotationDeg)` pair has been rasterized at most once, and any
pair already rasterized has its key in the cache. -/
def cacheInv (st : MainState) : Prop :=
  ∀ v d, rotateCallCount st v d ≤ 1 ∧
    (1 ≤ rotateCallCount st v d →
      (mapGet st.imageCache (cacheKeyOf v d)).isSome = true)

theorem mainStep_cacheInv (pb : PrintBounds) (originalMergedCells : List String)
    (signaturesMap : List (String × List SignatureFile))
    (rotate : String → Int → String) (st : MainState) (a : SignatureAssignment)
    (hrot : ∀ url deg, rotate url deg ≠ "" ∧ base64CleanOf (rotate url deg) ≠ "")
    (h : cacheInv st) :
    cacheInv (mainStep pb originalMergedCells signaturesMap rotate st a) := by
  unfold mainStep
  by_cases h1 : isInPrintArea pb a.row a.col = true
  · rw [if_neg (by simp [h1])]
    by_cases h2 : canPlaceSignature a.row a.col originalMergedCells = true
    · rw [if_neg (by simp [h2])]
      cases hfind : findSigFile signaturesMap a.signatureBaseName
          a.signatureVariantId with
      | none => exact h
      | some sigFile =>
        dsimp only
        cases hcache : mapGet st.imageCache (cacheKeyOf sigFile.variant a.rotation) with
        | some imageId =>
          dsimp only
          intro v d
          have hfields := placeImage_fields st a sigFile imageId
          rw [show rotateCallCount (placeImage st a sigFile imageId) v d =
              rotateCallCount st v d from by
            unfold rotateCallCount
            rw [hfields.2.2.1]]
          rw [hfields.2.2.2]
          exact h v d
        | none =>
          dsimp only
          rw [if_neg (by simpa using (hrot sigFile.previewUrl a.rotation).1)]
          rw [if_neg (by simpa using (hrot sigFile.previewUrl a.rotation).2)]
          set st2 : MainState :=
            { imageCache := mapSet st.imageCache
                (cacheKeyOf sigFile.variant a.rotation) st.nextImageId,
              nextImageId := st.nextImageId + 1,
              placed := st.placed,
              processedCount := st.processedCount,
              failureCount := st.failureCount,
              skippedCount := st.skippedCount,
              rotateLog := st.rotateLog ++ [(sigFile.variant, a.rotation)] } with hst2
          have hfields := placeImage_fields st2 a sigFile st.nextImageId
          have hcache2 : st2.imageCache = st.imageCache ++
              [(cacheKeyOf sigFile.variant a.rotation, st.nextImageId)] := by
            rw [hst2]
            exact mapSet_of_none st.nextImageId hcache
          intro v d
          rw [show rotateCallCount (placeImage st2 a sigFile st.nextImageId) v d =
              rotateCallCount st2 v d from by
            unfold rotateCallCount
            rw [hfields.2.2.1]]
          rw [hfields.2.2.2]
          have hlog : rotateCallCount st2 v d = rotateCallCount st v d +
              (if (sigFile.variant, a.rotation) = (v, d) then 1 else 0) := by
            unfold rotateCallCount
            rw [hst2]
            dsimp only
            rw [List.countP_append, List.countP_cons, List.countP_nil]
            by_cases hp : (sigFile.variant, a.rotation) = (v, d) <;> simp [hp]
          by_cases hpair : (sigFile.variant, a.rotation) = (v, d)
          · have hv : sigFile.variant = v := congrArg Prod.fst hpair
            have hd : a.rotation = d := congrArg Prod.snd hpair
            subst hv
            subst hd
            have hzero : rotateCallCount st sigFile.variant a.rotation = 0 := by
              by_contra hnz
              have hge : 1 ≤ rotateCallCount st sigFile.variant a.rotation := by omega
              have := (h sigFile.variant a.rotation).2 hge
              rw [hcache] at this
              simp at this
            rw [hlog, if_pos rfl, hzero]
            refine ⟨by omega, fun _ => ?_⟩
            rw [hcache2]
            rw [mapGet_append_self st.nextImageId hcache]
            rfl
          · rw [hlog, if_neg hpair]
            refine ⟨by simpa using (h v d).1, fun hge => ?_⟩
            have hsome := (h v d).2 (by omega)
            rw [hcache2, mapGet_append_preserve _ _ hsome]
            exact hsome
    · rw [if_pos (by simp [h2])]
      exact h
  · rw [if_pos (by simp [h1])]
    exact h

theorem mainPass_cacheInv (pb : PrintBounds) (originalMergedCells : List String)
    (signaturesMap : List (String × List SignatureFile))
    (rotate : String → Int → String) (assignmentValues : List SignatureAssignment)
    (hrot : ∀ url deg, rotate url deg ≠ "" ∧ base64CleanOf (rotate url deg) ≠ "") :
    ∀ st : MainState, cacheInv st →
      cacheInv (assignmentValues.foldl
        (mainStep pb originalMergedCells signaturesMap rotate) st) := by
  induction assignmentValues with
  | nil => intro st h; exact h
  | cons a rest ih =>
    intro st h
    exact ih (mainStep pb originalMergedCells signaturesMap rotate st a)
      (mainStep_cacheInv pb originalMergedCells signaturesMap rotate st a hrot h)

/-- C6 (amended): rasterization is memoized per run by
`(variantId, rotationDeg)` provided rendering succeeds: when the
rasterizer oracle never fails (non-empty data-URL with a non-empty base64
payload, the success contract of `rotateImage`), the main pass invokes it
at most once per `(variantId, rotationDeg)` pair, every later assignment
with the same pair reusing the cached image id.  (When a render fails the
result is deliberately not cached and the pair is retried on the next
assignment, so the unqualified "at most once per pair" of the claim does
not hold — see the counterexample.) -/
theorem c6_amended_rasterizer_memoized (pb : PrintBounds)
    (originalMergedCells : List String)
    (signaturesMap : List (String × List SignatureFile))
    (rotate : String → Int → String) (assignmentValues : List SignatureAssignment)
    (v : String) (d : Int)
    (hrot : ∀ url deg, rotate url deg ≠ "" ∧ base64CleanOf (rotate url deg) ≠ "") :
    rotateCallCount (mainPassRun pb originalMergedCells signaturesMap rotate
      assignmentValues) v d ≤ 1 := by
  refine (mainPass_cacheInv pb originalMergedCells signaturesMap rotate
    assignmentValues hrot ⟨[], 0, [], 0, 0, 0, []⟩ ?_ v d).1
  intro v' d'
  exact ⟨by simp [rotateCallCount], by simp [rotateCallCount]⟩

theorem c6_amended_rasterizer_memoized_witness :
    (∀ url deg, rotOk url deg ≠ "" ∧ base64CleanOf (rotOk url deg) ≠ "") ∧
      rotateCallCount (mainPassRun pbW [] sigsC1 rotOk [aW, aW]) "alice_v1" 2 ≤ 1 :=
  ⟨fun url deg => ⟨by simp [rotOk], by simp [rotOk]; decide⟩,
   c6_amended_rasterizer_memoized pbW [] sigsC1 rotOk [aW, aW] "alice_v1" 2
     (fun url deg => ⟨by simp [rotOk], by simp [rotOk]; decide⟩)⟩

/-- A rasterizer oracle that always fails (empty data-URL), standing for
the failure branches of `rotateImage`. -/
def rotFail : String → Int → String := fun _ _ => ""

/-- C6 counterexample: failed renders are not cached, so the rasterizer is
not invoked "at most once per `(variantId, rotationDeg)` pair per run" as
claimed.  With a failing rasterizer, two assignments referencing the same
pair `("alice_v1", 2)` invoke it twice for that one pair. -/
theorem c6_counterexample_rasterizer_retried_on_failure :
    rotateCallCount (mainPassRun pbW [] sigsC1 rotFail [aW, aW]) "alice_v1" 2 = 2 := by
  decide

/-! ## Merge and print-area restoration (lines 736-817) and claim C3 -/

/-- The worksheet metadata the restoration step reads and writes: the
current merge-range list (`worksheet.model.merges`) and the current print
area (`worksheet.pageSetup.printArea`). -/
structure WsState where
  merges : List String
  printArea : Option String
deriving DecidableEq

/-- Embedding of `normalizeMergeRange` (lines 746-748): uppercase, then
delete whitespace and `$`. -/
def normalizeMergeRange (range : String) : String :=
  String.mk ((range.data.map jsToUpper).filter (fun c => !(jsSpaceChar c || c == '$')))

/-- Embedding of the merge-restoration loop (lines 751-798): the current
merges are normalized into a lookup set once; every snapshot range whose
normalization is not in that set is re-applied with `worksheet.mergeCells`
(modelled as appending the range — the model assumes the re-merge call
itself succeeds; a throwing `mergeCells` is the counted-and-logged
`errorCount` branch).  A snapshot with no merges leaves the sheet as is. -/
def restoreMerges (originalMergedCells : List String) (ws : WsState) : WsState :=
  if originalMergedCells.length > 0 then
    let normalizedCurrentMerges := ws.merges.map normalizeMergeRange
    { ws with merges := ws.merges ++ (originalMergedCells.filter
        (fun m => !(normalizedCurrentMerges.contains (normalizeMergeRange m)))) }
  else ws

/-- Embedding of the whole restoration step (lines 736-817): the merge
loop runs, then the final check (lines 800-817) only reads
`worksheet.model.merges` and `worksheet.pageSetup.printArea` and logs
warnings — in particular the snapshot print area `originalPrintArea` is
compared against the current one but never written back. -/
def restorationPhase (originalMergedCells : List String)
    (originalPrintArea : Option String) (ws : WsState) : WsState :=
  let restored := restoreMerges originalMergedCells ws
  let _finalMergedCells := restored.merges
  let _finalPrintArea := restored.printArea
  restored

/-- C3 counterexample: the restoration step never re-applies the print
area.  Here the snapshot print area is `Sheet1!A1:C10` but the worksheet
lost it (the current print area is `none`): after restoration the output
print area is still `none`, not the snapshot value, contradicting the
claim that the print-area setting is re-applied when it differs and that
the output's print-area string always equals the original's. -/
theorem c3_counterexample_print_area_not_reapplied :
    (restorationPhase ["A1:B2"] (some "Sheet1!A1:C10")
        ⟨["A1:B2"], none⟩).printArea = none ∧
      some "Sheet1!A1:C10" ≠ (none : Option String) := by
  exact ⟨rfl, by simp⟩

theorem length_filter_comp {α β : Type} (f : α → β) (p : β → Bool) (l : List α) :
    (l.filter (fun a => p (f a))).length = ((l.map f).filter p).length := by
  induction l with
  | nil => rfl
  | cons a t ih =>
    by_cases hp : p (f a) = true
    · simp [List.filter_cons, hp, ih]
    · simp [List.filter_cons, hp, ih]

/-- C3 (amended): the restoration step re-applies every snapshot merge
range no longer present (presence compared by the case-, whitespace- and
`$`-insensitive normalized range string), so after restoration every
snapshot merge is present, and — provided image insertion only dropped
merges (the current normalized merges are a duplicate-free subset of the
duplicate-free snapshot) — the merge-range count equals the snapshot
count.  The print area, however, is NOT re-applied: the step leaves
`pageSetup.printArea` exactly as it found it, the snapshot value being
used only for a logged warning. -/
theorem c3_amended_merge_restoration (originalMergedCells : List String)
    (originalPrintArea : Option String) (ws : WsState)
    (hsub : ∀ m ∈ ws.merges,
      normalizeMergeRange m ∈ originalMergedCells.map normalizeMergeRange)
    (hnd1 : (ws.merges.map normalizeMergeRange).Nodup)
    (hnd2 : (originalMergedCells.map normalizeMergeRange).Nodup) :
    (∀ m ∈ originalMergedCells, normalizeMergeRange m ∈
        (restorationPhase originalMergedCells originalPrintArea ws).merges.map
          normalizeMergeRange) ∧
      (restorationPhase originalMergedCells originalPrintArea ws).merges.length =
        originalMergedCells.length ∧
      (restorationPhase originalMergedCells originalPrintArea ws).printArea =
        ws.printArea := by
  have hphase : restorationPhase originalMergedCells originalPrintArea ws =
      restoreMerges originalMergedCells ws := rfl
  rw [hphase]
  unfold restoreMerges
  by_cases hlen : originalMergedCells.length > 0
  · rw [if_pos hlen]
    dsimp only
    have hCsubO : ∀ x ∈ ws.merges.map normalizeMergeRange,
        x ∈ originalMergedCells.map normalizeMergeRange := by
      intro x hx
      obtain ⟨m', hm', rfl⟩ := List.mem_map.mp hx
      exact hsub m' hm'
    refine ⟨?_, ?_, rfl⟩
    · intro m hm
      by_cases hin : normalizeMergeRange m ∈ ws.merges.map normalizeMergeRange
      · obtain ⟨m', hm', heq⟩ := List.mem_map.mp hin
        exact List.mem_map.mpr ⟨m', List.mem_append_left _ hm', heq⟩
      · refine List.mem_map.mpr ⟨m, List.mem_append_right _ ?_, rfl⟩
        rw [List.mem_filter]
        refine ⟨hm, ?_⟩
        simp only [List.contains, List.elem_eq_mem]
        simpa using hin
    · rw [List.length_append]
      have hfl : (originalMergedCells.filter (fun m =>
          !((ws.merges.map normalizeMergeRange).contains (normalizeMergeRange m)))).length =
          ((originalMergedCells.map normalizeMergeRange).filter (fun x =>
            !((ws.merges.map normalizeMergeRange).contains x))).length :=
        length_filter_comp normalizeMergeRange
          (fun x => !((ws.merges.map normalizeMergeRange).contains x)) originalMergedCells
      have hpart := List.length_eq_length_filter_add
        (l := originalMergedCells.map normalizeMergeRange)
        (fun x => (ws.merges.map normalizeMergeRange).contains x)
      have hkept : ((originalMergedCells.map normalizeMergeRange).filter (fun x =>
          (ws.merges.map normalizeMergeRange).contains x)).length =
          (ws.merges.map normalizeMergeRange).length := by
        apply List.Perm.length_eq
        rw [List.perm_ext_iff_of_nodup (hnd2.filter _) hnd1]
        intro x
        rw [List.mem_filter]
        constructor
        · intro hx
          have := hx.2
          simpa using this
        · intro hx
          refine ⟨hCsubO x hx, by simpa using hx⟩
      rw [List.length_map] at hkept
      simp only [List.length_map] at hpart
      rw [hfl]
      omega
  · rw [if_neg hlen]
    have hempty : ws.merges = [] := by
      cases hm : ws.merges with
      | nil => rfl
      | cons m rest =>
        exfalso
        have := hsub m (by rw [hm]; exact List.mem_cons_self m rest)
        rcases List.mem_map.mp this with ⟨m', hm', _⟩
        have : originalMergedCells.length > 0 := by
          cases originalMergedCells with
          | nil => simp at hm'
          | cons a t => simp
        exact hlen this
    refine ⟨?_, ?_, rfl⟩
    · intro m hm
      exfalso
      have : originalMergedCells.length > 0 := by
        cases originalMergedCells with
        | nil => simp at hm
        | cons a t => simp
      exact hlen this
    · rw [hempty]
      simp only [List.length_nil]
      omega

/-- Snapshot merges for the C3 witness. -/
def origMergesW : List String := ["A1:B2", "C3:D4"]

/-- A worksheet that (after image insertion) kept only the first merge, in
a differently-cased spelling, and the print area `P`. -/
def wsW : WsState := ⟨["a1:b2"], some "P"⟩

theorem c3_amended_merge_restoration_witness :
    ((∀ m ∈ wsW.merges,
        normalizeMergeRange m ∈ origMergesW.map normalizeMergeRange) ∧
      (wsW.merges.map normalizeMergeRange).Nodup ∧
      (origMergesW.map normalizeMergeRange).Nodup) ∧
    ((∀ m ∈ origMergesW, normalizeMergeRange m ∈
        (restorationPhase origMergesW (some "P") wsW).merges.map
          normalizeMergeRange) ∧
      (restorationPhase origMergesW (some "P") wsW).merges.length =
        origMergesW.length ∧
      (restorationPhase origMergesW (some "P") wsW).printArea = wsW.printArea) :=
  ⟨⟨by decide, by decide, by decide⟩,
   c3_amended_merge_restoration origMergesW (some "P") wsW
     (by decide) (by decide) (by decide)⟩

/-! ## Save and validate (lines 874-919) and claim C4 -/

/-- Embedding of the save step (lines 891-915) applied to the buffer that
`workbook.xlsx.writeBuffer()` produced (a byte list): an empty buffer and
a buffer under 100 bytes are thrown errors (re-thrown by the surrounding
`catch` with the `파일 저장 실패` prefix); the ZIP magic-number check
(`PK`, bytes `0x50 0x4b`) only computes the `isZip` flag — a failed check
logs a warning and the blob is returned anyway. -/
def writeAndValidate (buffer : List Nat) : Except String (List Nat × Bool) :=
  if buffer.length == 0 then
    Except.error "파일 저장 실패: 버퍼 생성 실패 - 빈 파일"
  else if buffer.length < 100 then
    Except.error ("파일 저장 실패: 버퍼 크기 이상: " ++ toString buffer.length ++
      " bytes - 파일이 손상됨")
  else
    let isZip := buffer.getD 0 0 == 0x50 && buffer.getD 1 0 == 0x4b
    Except.ok (buffer, isZip)

/-- C4 counterexample: a 100-byte buffer that does not start with the
`PK` ZIP signature fails the structural magic-number validation, yet
`generateFinalExcel` returns it successfully (`isZip = false` only
triggers a console warning) — so the function does not raise on every
structurally invalid buffer and can return a buffer that fails this
validation. -/
theorem c4_counterexample_invalid_zip_returned :
    writeAndValidate (List.replicate 100 7) =
      Except.ok (List.replicate 100 7, false) := by
  rfl

/-- C4 (amended): the save step raises its fatal error exactly when the
serialized buffer is empty or under 100 bytes; the magic-number
(structural) check is advisory only — a large-enough buffer is always
returned, with the failed check surfaced as a warning flag, not an
error. -/
theorem c4_amended_save_validation (buffer : List Nat) :
    ((∃ e, writeAndValidate buffer = Except.error e) ↔ buffer.length < 100) ∧
      (buffer.length ≥ 100 → writeAndValidate buffer =
        Except.ok (buffer, buffer.getD 0 0 == 0x50 && buffer.getD 1 0 == 0x4b)) := by
  constructor
  · constructor
    · rintro ⟨e, he⟩
      unfold writeAndValidate at he
      by_cases h0 : (buffer.length == 0) = true
      · have h0' : buffer.length = 0 := beq_iff_eq.mp h0
        omega
      · rw [if_neg h0] at he
        by_cases h1 : buffer.length < 100
        · exact h1
        · rw [if_neg h1] at he
          exact absurd he (by simp)
    · intro hlt
      unfold writeAndValidate
      by_cases h0 : (buffer.length == 0) = true
      · rw [if_pos h0]
        exact ⟨_, rfl⟩
      · rw [if_neg h0, if_pos hlt]
        exact ⟨_, rfl⟩
  · intro hge
    unfold writeAndValidate
    rw [if_neg (fun hc => by have := beq_iff_eq.mp hc; omega),
      if_neg (by omega)]

theorem c4_amended_save_validation_witness :
    (List.replicate 100 80).length ≥ 100 ∧
      writeAndValidate (List.replicate 100 80) =
        Except.ok (List.replicate 100 80,
          (List.replicate 100 80).getD 0 0 == 0x50 &&
            (List.replicate 100 80).getD 1 0 == 0x4b) :=
  ⟨by decide, (c4_amended_save_validation (List.replicate 100 80)).2 (by decide)⟩
